import Mathlib

/-!
Verification development for the `querysssb` repository.

The repository contains two scraping pipelines:

* `src/query_sssb.py` — the anonymous SSSB scraper (`SSSBScraper`): URL
  building (`_build_url`), flat-token listing parsing (`query` /
  `_parse_listing_row`), per-record detail enrichment (`_get_closing_date`)
  and the three output formatters (`format_table` / `format_json` /
  `format_csv`).
* `src/scraper/listings.py` (`scrape_listings`) together with
  `src/auth/login.py` (`login`) — the authenticated scraper with
  structured parsing and the incremental CSV store.

Python strings are embedded as `List Char` (`Str`); the Python string
methods used by the source (`split`, `strip`, `replace`, `lower`,
`rstrip`, substring containment, `int(...)` coercion) are given faithful
counterparts below.  Browser interaction is embedded as explicit
environments describing what the site serves, and runs produce an
explicit result together with a trace of session events.
-/

/-- Python strings are modelled as lists of characters. -/
abbrev Str := List Char

/-- Shorthand for turning a Lean string literal into the `Str` model. -/
def toL (s : String) : Str := s.toList

/-- Python `str.strip()`: remove leading and trailing whitespace. -/
def pyStrip (s : Str) : Str :=
  ((s.dropWhile Char.isWhitespace).reverse.dropWhile Char.isWhitespace).reverse

/-- Python `str.lower()` (ASCII case folding suffices for the inputs used). -/
def pyLower (s : Str) : Str := s.map Char.toLower

/-- Recursion core of `pyReplace`, fuelled by the input length: at each
position, a match of the (non-empty) pattern emits the replacement and
skips the matched characters, otherwise the head character is kept. -/
def pyReplaceAux (pat rep : Str) : Nat → Str → Str
  | 0, s => s
  | _ + 1, [] => []
  | fuel + 1, c :: t =>
    if pat.isPrefixOf (c :: t) then
      rep ++ pyReplaceAux pat rep fuel ((c :: t).drop pat.length)
    else c :: pyReplaceAux pat rep fuel t

/-- Python `str.replace(old, new)` for a non-empty pattern `pat`: replace
every non-overlapping occurrence of `pat` by `rep`, scanning left to
right.  (The source only calls this with the non-empty pattern `" st"`;
for an empty pattern we return the string unchanged.) -/
def pyReplace (pat rep : Str) (s : Str) : Str :=
  if pat = [] then s else pyReplaceAux pat rep s.length s

/-- Python `str.rstrip("\n")`: drop trailing newline characters. -/
def pyRstripNl (s : Str) : Str :=
  (s.reverse.dropWhile (· = '\n')).reverse

/-- Decimal digit run to a natural number. -/
def digitsToNat (s : Str) : Nat :=
  s.foldl (fun a c => 10 * a + (c.toNat - 48)) 0

/-- Python `int(str)`: strip whitespace, allow one optional sign, then
require a non-empty run of decimal digits; anything else raises
`ValueError`, modelled as `none`. -/
def pyInt (s : Str) : Option Int :=
  match pyStrip s with
  | '-' :: ds =>
      if ds ≠ [] ∧ ds.all Char.isDigit then some (-(digitsToNat ds : Int)) else none
  | '+' :: ds =>
      if ds ≠ [] ∧ ds.all Char.isDigit then some (digitsToNat ds : Int) else none
  | ds =>
      if ds ≠ [] ∧ ds.all Char.isDigit then some (digitsToNat ds : Int) else none

/-- Decimal rendering of an integer, as Python `str(int)` produces. -/
def intToStr (n : Int) : Str := (toString n).toList

/-! ## `query_sssb.py`: the `Housing` record -/

/-- The `Housing` class from `query_sssb.py`: one listing, all fields site-supplied
text; `closing_date` is `None` until enrichment. -/
structure Housing where
  name : Str
  area : Str
  address : Str
  housing_type : Str
  floor : Str
  living_space : Str
  rent : Str
  move_in_date : Str
  queue_days : Str
  applicants : Str
  link : Str
  closing_date : Option Str := none
deriving DecidableEq, Repr, Inhabited

/-! ## `SSSBScraper._build_url` -/

/-- The `SSSBScraper.HOUSING_TYPE_CODES` table. -/
def HOUSING_TYPE_CODES : List (Str × Str) :=
  [(toL "room", toL "BOASR"), (toL "studio", toL "BOAS1"),
   (toL "apartment", toL "BOASL"), (toL "all", toL "")]

/-- The `SSSBScraper.FIELDS_PER_LISTING` constant. -/
def FIELDS_PER_LISTING : Nat := 8

/-- The `SSSBScraper.LIST_URL` constant. -/
def LIST_URL : Str :=
  toL "https://sssb.se/en/looking-for-housing/apply-for-apartment/available-apartments/available-apartments-list/"

/-- Lookup `self.HOUSING_TYPE_CODES.get(housing_type.lower(), "")`. -/
def typeCode (housing_type : Str) : Str :=
  (HOUSING_TYPE_CODES.lookup (pyLower housing_type)).getD []

/-- The `params` list of `_build_url` after the `[p for p in params if p]`
filter.  An `f"..."` entry is produced only when its Python guard is
truthy: a non-empty type code, a non-zero `max_rent`, a non-empty `area`. -/
def buildParams (housing_type : Str) (max_rent : Option Int) (area : Option Str) :
    List Str :=
  let type_code := typeCode housing_type
  ([if type_code ≠ [] then toL "objektTyper=" ++ type_code else [],
    match max_rent with
    | some n => if n ≠ 0 then toL "hyraMax=" ++ intToStr n else []
    | none => [],
    match area with
    | some a => if a ≠ [] then toL "omraden=" ++ a else []
    | none => [],
    toL "paginationantal=100"]).filter (· ≠ [])

/-- Model of `SSSBScraper._build_url`: base list URL, `?`, and the `&`-joined
filtered parameter list. -/
def buildUrl (housing_type : Str) (max_rent : Option Int) (area : Option Str) : Str :=
  LIST_URL ++ toL "?" ++ (toL "&").intercalate (buildParams housing_type max_rent area)

/-! ## `SSSBScraper._parse_listing_row` -/

/-- Lines 186–192 of `_parse_listing_row`: from the (already
whitespace-stripped in the caller, here re-stripped for the raw token)
queue-info token, extract `queue_days` (first space-separated word, `"0"`
for an empty token) and `applicants` (the text between the parentheses
with `" st"` removed and stripped, `"0"` when the token does not contain
both parentheses). -/
def parseQueueInfo (token : Str) : Str × Str :=
  let queue_info := pyStrip token
  let queue_days := if queue_info ≠ [] then (queue_info.splitOn ' ').headD [] else toL "0"
  let applicants :=
    if queue_info.contains '(' ∧ queue_info.contains ')' then
      pyStrip (pyReplace (toL " st") []
        ((((queue_info.splitOn '(').getD 1 []).splitOn ')').headD []))
    else toL "0"
  (queue_days, applicants)

/-- Model of `SSSBScraper._parse_listing_row`: split the row text on newlines; a
row with fewer than 8 parts yields no record; otherwise build the
`Housing` from the stripped positional fields.  (The `except
(IndexError, ValueError)` in the source can never fire once the length
check has passed: every index used is below 8 and no numeric coercion is
performed, so the success path is unconditional.) -/
def parseListingRow (row_text : Str) (link : Str) : Option Housing :=
  let parts := row_text.splitOn '\n'
  if parts.length < 8 then none
  else
    let area := pyStrip (parts.getD 0 [])
    let address := pyStrip (parts.getD 1 [])
    let housing_type := pyStrip (parts.getD 2 [])
    let floor := pyStrip (parts.getD 3 [])
    let living_space := pyStrip (parts.getD 4 [])
    let rent := pyStrip (parts.getD 5 [])
    let move_in_date := pyStrip (parts.getD 6 [])
    let qa := parseQueueInfo (parts.getD 7 [])
    some
      { name := area ++ toL " - " ++ address
        area := area
        address := address
        housing_type := housing_type
        floor := floor
        living_space := living_space
        rent := rent
        move_in_date := move_in_date
        queue_days := qa.1
        applicants := qa.2
        link := link }

/-- The row-grouping loop of `SSSBScraper.query` (lines 299–306), with
`i` the running index of `enumerate(links)`: for each link, take the
8-line window `rows[8*i : 8*i+8]` when it fits entirely within `rows`,
re-join it with newlines, parse it, and keep the parsed record. -/
def queryParseFrom (links : List Str) (rows : List Str) (i : Nat) : List Housing :=
  match links with
  | [] => []
  | link :: rest =>
    let start_idx := i * FIELDS_PER_LISTING
    let end_idx := start_idx + FIELDS_PER_LISTING
    if end_idx ≤ rows.length then
      match parseListingRow
          ((toL "\n").intercalate ((rows.drop start_idx).take FIELDS_PER_LISTING)) link with
      | some h => h :: queryParseFrom rest rows (i + 1)
      | none => queryParseFrom rest rows (i + 1)
    else queryParseFrom rest rows (i + 1)

/-- The listing-parsing phase of `SSSBScraper.query`: group the flat line
list into 8-line windows aligned with the link list. -/
def queryParse (links : List Str) (rows : List Str) : List Housing :=
  queryParseFrom links rows 0

/-! ## `SSSBScraper._get_closing_date` and the enrichment loop -/

/-- What the site serves for one detail-page navigation.  `fail` covers
every exception path of `_get_closing_date` (navigation error, wait
timeout, missing content marker — all caught by its `try/except`);
`page d` is a successful load whose deadline element, when present,
has text `d`. -/
inductive DetailFetch where
  | fail : DetailFetch
  | page : Option Str → DetailFetch
deriving DecidableEq, Repr

/-- Leftmost match of the date pattern `\d{4}-\d{2}-\d{2}`: does the
pattern match at the head of `s`? -/
def isDateAt (s : Str) : Bool :=
  match s with
  | a :: b :: c :: d :: '-' :: e :: f :: '-' :: g :: h :: _ =>
    a.isDigit && b.isDigit && c.isDigit && d.isDigit &&
    e.isDigit && f.isDigit && g.isDigit && h.isDigit
  | _ => false

/-- Model of the search `re.search` performs for the date pattern of four digits, a dash, two digits, a dash and two digits: the leftmost ten-character
window matching the date pattern, if any. -/
def findDate (s : Str) : Option Str :=
  if isDateAt s then some (s.take 10)
  else
    match s with
    | [] => none
    | _ :: t => findDate t

/-- Model of `SSSBScraper._get_closing_date`: navigate to the record's link; on
any failure return `None`; if the deadline element is missing return
`None`; otherwise return the first date-pattern match of its text (or
`None` when the pattern does not occur). -/
def getClosingDate (env : Str → DetailFetch) (h : Housing) : Option Str :=
  match env h.link with
  | DetailFetch.fail => none
  | DetailFetch.page none => none
  | DetailFetch.page (some txt) => findDate txt

/-- The enrichment loop of `SSSBScraper.query` (lines 309–313): each
record's `closing_date` is assigned from its own detail fetch; nothing
else about the record changes, and no record is added or removed.  (The
in-place field assignment of the Python loop is the per-element map.) -/
def enrichClosingDates (env : Str → DetailFetch) (housings : List Housing) :
    List Housing :=
  housings.map (fun h => { h with closing_date := getClosingDate env h })

/-- A record with its `closing_date` erased: the part of a `Housing`
that enrichment must not touch. -/
def eraseClosingDate (h : Housing) : Housing := { h with closing_date := none }

/-! ## `format_csv` and a standard CSV reader -/

/-- The fixed header row written by `format_csv`. -/
def csvHeaderRow : List Str :=
  [toL "Name", toL "Area", toL "Address", toL "Type", toL "Floor",
   toL "Living Space", toL "Rent", toL "Move-in Date", toL "Best Bid",
   toL "Applicants", toL "Closing Date", toL "Link"]

/-- The data row `format_csv` writes for one record
(`h.closing_date or ""` renders an absent date as the empty field). -/
def housingCsvRow (h : Housing) : List Str :=
  [h.name, h.area, h.address, h.housing_type, h.floor, h.living_space,
   h.rent, h.move_in_date, h.queue_days, h.applicants,
   h.closing_date.getD [], h.link]

/-- Under `csv.QUOTE_MINIMAL`, a field is quoted iff it contains the
delimiter, the quote character, or a line-terminator character. -/
def needsQuote (f : Str) : Bool :=
  f.any (fun c => c = ',' || c = '"' || c = '\r' || c = '\n')

/-- Double every quote character (the writer's escaping rule). -/
def escapeQuotes (f : Str) : Str :=
  f.flatMap (fun c => if c = '"' then ['"', '"'] else [c])

/-- One encoded CSV field under `csv.QUOTE_MINIMAL`. -/
def encodeField (f : Str) : Str :=
  if needsQuote f then '"' :: (escapeQuotes f ++ ['"']) else f

/-- One encoded CSV row: comma-joined encoded fields. -/
def encodeRow (r : List Str) : Str :=
  (toL ",").intercalate (r.map encodeField)

/-- The `csv.writer` output for a list of rows: each row followed by the
default `"\r\n"` line terminator. -/
def encodeCsv (rows : List (List Str)) : Str :=
  (rows.map (fun r => encodeRow r ++ ['\r', '\n'])).flatten

/-- Model of `format_csv`: header row, one row per record, then
`.getvalue().rstrip('\n')`. -/
def formatCsv (housings : List Housing) : Str :=
  pyRstripNl (encodeCsv (csvHeaderRow :: housings.map housingCsvRow))

/-- Standard CSV reading, quoted-field state: consume until the closing
quote, reading a doubled quote as a literal quote.  Returns the decoded
field content and the remaining input (positioned after the closing
quote). -/
def parseQuoted (s : Str) : Str × Str :=
  match s with
  | [] => ([], [])
  | '"' :: '"' :: t => ('"' :: (parseQuoted t).1, (parseQuoted t).2)
  | '"' :: t => ([], t)
  | c :: t => (c :: (parseQuoted t).1, (parseQuoted t).2)

/-- Characters at which an unquoted CSV field ends. -/
def isFieldEnd (c : Char) : Bool := c = ',' || c = '\r' || c = '\n'

/-- Standard CSV reading of one field: a field starting with a quote is
read in quoted mode, any other field extends to the next delimiter or
line break. -/
def parseField (s : Str) : Str × Str :=
  match s with
  | '"' :: t => parseQuoted t
  | _ => (s.takeWhile (fun c => !(isFieldEnd c)), s.dropWhile (fun c => !(isFieldEnd c)))

theorem parseQuoted_rest_length_le (s : Str) : (parseQuoted s).2.length ≤ s.length := by
  induction s using parseQuoted.induct with
  | case1 => simp [parseQuoted]
  | case2 t ih =>
    have : (parseQuoted ('"' :: '"' :: t)).2 = (parseQuoted t).2 := rfl
    rw [this]
    simp only [List.length_cons]
    omega
  | case3 t => simp [parseQuoted]
  | case4 c t h1 h2 ih =>
    have : (parseQuoted (c :: t)).2 = (parseQuoted t).2 := by
      rw [parseQuoted.eq_def]
      split
      · rename_i heq; simp at heq
      · rename_i t' heq
        simp only [List.cons.injEq] at heq
        exact (h1 t' heq.1 heq.2).elim
      · rename_i t' heq
        simp only [List.cons.injEq] at heq
        exact (h2 heq.1).elim
      · rename_i c' t' _ _ heq
        simp only [List.cons.injEq] at heq
        obtain ⟨rfl, rfl⟩ := heq
        rfl
    rw [this]
    simp only [List.length_cons]
    omega

theorem parseField_rest_length_le (s : Str) : (parseField s).2.length ≤ s.length := by
  rw [parseField.eq_def]
  split
  · rename_i t
    have := parseQuoted_rest_length_le t
    simp only [List.length_cons]
    omega
  · exact (List.dropWhile_sublist _).length_le

/-- Standard CSV reading of one record: fields separated by commas, the
record closed by a line break (`"\r\n"`, `"\n"`, or a bare `"\r"`) or by
the end of input.  (The final catch-all arm is unreachable on input
produced by a CSV writer — after a field the input continues with a
delimiter, a line break, or ends — and simply closes the record.) -/
def parseRecord (s : Str) : List Str × Str :=
  match hr : (parseField s).2 with
  | ',' :: t =>
    ((parseField s).1 :: (parseRecord t).1, (parseRecord t).2)
  | '\r' :: '\n' :: t => ([(parseField s).1], t)
  | '\r' :: t => ([(parseField s).1], t)
  | '\n' :: t => ([(parseField s).1], t)
  | [] => ([(parseField s).1], [])
  | _ :: t => ([(parseField s).1], t)
termination_by s.length
decreasing_by
  have := parseField_rest_length_le s
  rw [hr] at this
  simp only [List.length_cons] at this
  omega

theorem parseRecord_comma {s : Str} {t : List Char} (hr : (parseField s).2 = ',' :: t) :
    parseRecord s = ((parseField s).1 :: (parseRecord t).1, (parseRecord t).2) := by
  rw [parseRecord.eq_def]
  split
  · rename_i t' heq
    rw [hr] at heq
    injection heq with h1 h2
    subst h2
    rfl
  · rename_i t' heq
    rw [hr] at heq; exact absurd heq (by simp)
  · rename_i t' hg heq
    rw [hr] at heq; exact absurd heq (by simp)
  · rename_i t' heq
    rw [hr] at heq; exact absurd heq (by simp)
  · rename_i heq
    rw [hr] at heq; exact absurd heq (by simp)
  · rename_i head t' gA gB gC gD heq
    rw [hr] at heq
    injection heq with h1 h2
    exact absurd h1.symm gA

theorem parseRecord_crlf {s : Str} {t : List Char}
    (hr : (parseField s).2 = '\r' :: '\n' :: t) :
    parseRecord s = ([(parseField s).1], t) := by
  rw [parseRecord.eq_def]
  split
  · rename_i t' heq
    rw [hr] at heq; exact absurd heq (by simp)
  · rename_i t' heq
    rw [hr] at heq
    injection heq with h1 h2
    injection h2 with h3 h4
    subst h4
    rfl
  · rename_i t' hg heq
    rw [hr] at heq
    injection heq with h1 h2
    exact absurd h2.symm (hg t)
  · rename_i t' heq
    rw [hr] at heq; exact absurd heq (by simp)
  · rename_i heq
    rw [hr] at heq; exact absurd heq (by simp)
  · rename_i head t' gA gB gC gD heq
    rw [hr] at heq
    injection heq with h1 h2
    exact absurd h1.symm gC

theorem parseRecord_cr {s : Str} {t : List Char} (hr : (parseField s).2 = '\r' :: t)
    (ht : ∀ u, t ≠ '\n' :: u) :
    parseRecord s = ([(parseField s).1], t) := by
  rw [parseRecord.eq_def]
  split
  · rename_i t' heq
    rw [hr] at heq; exact absurd heq (by simp)
  · rename_i t' heq
    rw [hr] at heq
    injection heq with h1 h2
    exact absurd h2 (ht t')
  · rename_i t' hg heq
    rw [hr] at heq
    injection heq with h1 h2
    subst h2
    rfl
  · rename_i t' heq
    rw [hr] at heq; exact absurd heq (by simp)
  · rename_i heq
    rw [hr] at heq; exact absurd heq (by simp)
  · rename_i head t' gA gB gC gD heq
    rw [hr] at heq
    injection heq with h1 h2
    exact absurd h1.symm gC

theorem parseRecord_lf {s : Str} {t : List Char} (hr : (parseField s).2 = '\n' :: t) :
    parseRecord s = ([(parseField s).1], t) := by
  rw [parseRecord.eq_def]
  split
  · rename_i t' heq
    rw [hr] at heq; exact absurd heq (by simp)
  · rename_i t' heq
    rw [hr] at heq; exact absurd heq (by simp)
  · rename_i t' hg heq
    rw [hr] at heq; exact absurd heq (by simp)
  · rename_i t' heq
    rw [hr] at heq
    injection heq with h1 h2
    subst h2
    rfl
  · rename_i heq
    rw [hr] at heq; exact absurd heq (by simp)
  · rename_i head t' gA gB gC gD heq
    rw [hr] at heq
    injection heq with h1 h2
    exact absurd h1.symm gD

theorem parseRecord_eq_nil {s : Str} (hr : (parseField s).2 = []) :
    parseRecord s = ([(parseField s).1], []) := by
  rw [parseRecord.eq_def]
  split
  · rename_i t' heq
    rw [hr] at heq; exact absurd heq (by simp)
  · rename_i t' heq
    rw [hr] at heq; exact absurd heq (by simp)
  · rename_i t' hg heq
    rw [hr] at heq; exact absurd heq (by simp)
  · rename_i t' heq
    rw [hr] at heq; exact absurd heq (by simp)
  · rename_i heq
    rfl
  · rename_i head t' gA gB gC gD heq
    rw [hr] at heq; exact absurd heq (by simp)

theorem parseRecord_other {s : Str} {c : Char} {t : List Char}
    (hr : (parseField s).2 = c :: t) (g1 : c ≠ ',') (g2 : c ≠ '\r') (g3 : c ≠ '\n') :
    parseRecord s = ([(parseField s).1], t) := by
  rw [parseRecord.eq_def]
  split
  · rename_i t' heq
    rw [hr] at heq
    injection heq with h1 h2
    exact absurd h1 g1
  · rename_i t' heq
    rw [hr] at heq
    injection heq with h1 h2
    exact absurd h1 g2
  · rename_i t' hg heq
    rw [hr] at heq
    injection heq with h1 h2
    exact absurd h1 g2
  · rename_i t' heq
    rw [hr] at heq
    injection heq with h1 h2
    exact absurd h1 g3
  · rename_i heq
    rw [hr] at heq; exact absurd heq (by simp)
  · rename_i head t' gA gB gC gD heq
    rw [hr] at heq
    injection heq with h1 h2
    subst h1
    subst h2
    rfl

theorem parseRecord_rest_length_le (s : Str) : (parseRecord s).2.length ≤ s.length := by
  induction s using parseRecord.induct with
  | case1 s t hr ih =>
    have hf := parseField_rest_length_le s
    rw [hr] at hf
    rw [parseRecord_comma hr]
    show (parseRecord t).2.length ≤ s.length
    simp only [List.length_cons] at hf
    omega
  | case2 s t hr =>
    have hf := parseField_rest_length_le s
    rw [hr] at hf
    rw [parseRecord_crlf hr]
    show t.length ≤ s.length
    simp only [List.length_cons] at hf
    omega
  | case3 s t ht hr =>
    have hf := parseField_rest_length_le s
    rw [hr] at hf
    rw [parseRecord_cr hr (fun u hu => ht u hu)]
    show t.length ≤ s.length
    simp only [List.length_cons] at hf
    omega
  | case4 s t hr =>
    have hf := parseField_rest_length_le s
    rw [hr] at hf
    rw [parseRecord_lf hr]
    show t.length ≤ s.length
    simp only [List.length_cons] at hf
    omega
  | case5 s hr =>
    rw [parseRecord_eq_nil hr]
    simp
  | case6 s c t h1 h2 h3 h4 hr =>
    have hf := parseField_rest_length_le s
    rw [hr] at hf
    rw [parseRecord_other hr (fun h => h1 h) (fun h => h3 h) (fun h => h4 h)]
    show t.length ≤ s.length
    simp only [List.length_cons] at hf
    omega

theorem parseRecord_rest_length_lt (s : Str) (hs : s ≠ []) :
    (parseRecord s).2.length < s.length := by
  have hf := parseField_rest_length_le s
  have hpos : 0 < s.length := List.length_pos.mpr hs
  rw [parseRecord.eq_def]
  split
  · rename_i t heq
    have := parseRecord_rest_length_le t
    rw [heq] at hf
    show (parseRecord t).2.length < s.length
    simp only [List.length_cons] at hf
    omega
  · rename_i t heq
    rw [heq] at hf
    show t.length < s.length
    simp only [List.length_cons] at hf
    omega
  · rename_i t hg heq
    rw [heq] at hf
    show t.length < s.length
    simp only [List.length_cons] at hf
    omega
  · rename_i t heq
    rw [heq] at hf
    show t.length < s.length
    simp only [List.length_cons] at hf
    omega
  · rename_i heq
    show (List.length ([] : Str)) < s.length
    simpa using hpos
  · rename_i head t gA gB gC gD heq
    rw [heq] at hf
    show t.length < s.length
    simp only [List.length_cons] at hf
    omega

/-- Standard CSV reading of a whole document: no records in empty input,
otherwise one record per line until the input is exhausted. -/
def parseCsv (s : Str) : List (List Str) :=
  if hs : s = [] then []
  else (parseRecord s).1 :: parseCsv (parseRecord s).2
termination_by s.length
decreasing_by
  exact parseRecord_rest_length_lt s hs

/-! ## `auth/login.py` -/

/-- What the login page serves: whether `select_form('#loginform')` finds
the form and whether the form has the `log` / `pwd` inputs. -/
structure LoginPage where
  hasLoginForm : Bool
  hasLogField : Bool
  hasPwdField : Bool
deriving DecidableEq, Repr

/-- The `mechanicalsoup` library raises `LinkNotFoundError` when a selected form or a
form field is missing; nothing in `login` catches it, so it propagates to
the caller.  This is the concrete exception behind the spec's
`AuthenticationFailure`. -/
inductive LoginError where
  | linkNotFound : LoginError
deriving DecidableEq, Repr

/-- Model of `login(username, password)` from `auth/login.py`: select `#loginform`
(raises if absent), fill `log` and `pwd` (each raises if the input is
missing), submit.  No exception handling: any failure propagates. -/
def loginRun (page : LoginPage) : Except LoginError Unit :=
  if ¬page.hasLoginForm then Except.error LoginError.linkNotFound
  else if ¬page.hasLogField then Except.error LoginError.linkNotFound
  else if ¬page.hasPwdField then Except.error LoginError.linkNotFound
  else Except.ok ()

/-! ## `scraper/listings.py`: per-row extraction -/

/-- The exceptions a single row of the `for apt in apartments` loop can
raise: `IndexError` from `data[2]` / `data[4]` on a short row,
`ValueError` from `int(...)` on a non-numeric queue-days field. -/
inductive RowError where
  | indexError : RowError
  | valueError : RowError
deriving DecidableEq, Repr

/-- One `div.appartment.row` subtree as the loop reads it: the header
texts, the data texts, and the optional title/address elements. -/
structure RawApartment where
  headers : List Str
  data : List Str
  title : Option Str
  address : Option Str
deriving DecidableEq, Repr

/-- A Python `dict` with string keys and values, in insertion order. -/
abbrev ApartmentDict := List (Str × Str)

/-- Python `d[k] = v`: overwrite in place if the key exists, else append. -/
def dictSet (d : ApartmentDict) (k v : Str) : ApartmentDict :=
  if (d.lookup k).isSome then d.map (fun p => if p.1 = k then (k, v) else p)
  else d ++ [(k, v)]

/-- Python `dict(pairs)`: left-to-right insertion. -/
def pyDict (ps : List (Str × Str)) : ApartmentDict :=
  ps.foldl (fun d p => dictSet d p.1 p.2) []

/-- Python `str.replace` deleting `'\xa0'`: remove all non-breaking spaces. -/
def pyRemoveNbsp (s : Str) : Str := s.filter (· ≠ '\xa0')

/-- Model of the substitution `re.sub` applied to the queue-days field, with pattern whitespace-then-parenthesized-text: with a greedy `.*`, the single match
(when one exists) runs from the whitespace preceding the first `(` that
has some `)` after it, to the last `)` of the string; the text after that
last `)` contains no further `)` so no second match occurs. -/
def pySubParen (s : Str) : Str :=
  let q := s.findIdx (· = '(')
  let revR := s.reverse.findIdx (· = ')')
  if q < s.length ∧ revR < s.length then
    let lastR := s.length - 1 - revR
    if q < lastR then
      let pre := s.take q
      let start := q - (pre.reverse.takeWhile Char.isWhitespace).length
      s.take start ++ s.drop (lastR + 1)
    else s
  else s

/-- One iteration of the `for apt in apartments` loop of
`scrape_listings` (lines 133–153): filter empty data entries, clean the
rent field (`data[2]`), coerce the queue-days field (`data[4]`) to an
integer after removing the parenthesized suffix, then build the dict and
attach `Title`, `Address`, `ConsultationDate` and `CreditDays`.  A short
row raises `IndexError`; a non-numeric queue-days field raises
`ValueError`.  Neither is caught anywhere in `scrape_listings`. -/
def parseApartment (consultation_date credit_days : Str) (apt : RawApartment) :
    Except RowError ApartmentDict :=
  let data := apt.data.filter (· ≠ [])
  if data.length < 3 then Except.error RowError.indexError
  else
    let data := data.set 2 (pyRemoveNbsp (data.getD 2 []))
    if data.length < 5 then Except.error RowError.indexError
    else
      match pyInt (pySubParen (data.getD 4 [])) with
      | none => Except.error RowError.valueError
      | some n =>
        let data := data.set 4 (intToStr n)
        let info := pyDict (apt.headers.zip data)
        let info := dictSet info (toL "Title") (apt.title.getD [])
        let info := dictSet info (toL "Address") (apt.address.getD [])
        let info := dictSet info (toL "ConsultationDate") consultation_date
        let info := dictSet info (toL "CreditDays") credit_days
        Except.ok info

/-- The whole `for apt in apartments` loop: rows are processed in order
and the first uncaught exception aborts the loop — and with it the entire
`scrape_listings` call, discarding every row. -/
def parseApartments (consultation_date credit_days : Str)
    (apts : List RawApartment) : Except RowError (List ApartmentDict) :=
  match apts with
  | [] => Except.ok []
  | a :: rest => do
    let i ← parseApartment consultation_date credit_days a
    let is ← parseApartments consultation_date credit_days rest
    pure (i :: is)

/-! ## `scraper/listings.py`: the incremental store -/

/-- The store file: `none` when `storage/apartments.csv` does not exist,
otherwise the list of its rows (an empty list is an existing empty
file). -/
abbrev FileState := Option (List (List Str))

/-- The `dict.keys()` of the first batch record, the `fieldnames` of the
`DictWriter`. -/
def dictKeys (d : ApartmentDict) : List Str := d.map Prod.fst

/-- The row `DictWriter.writerow` materializes once its key check has
passed (the check itself is `dictWriterWrite`): one cell per field name,
in field order; a missing key falls back to the default `restval`,
rendered as the empty cell. -/
def dictRow (fieldnames : List Str) (d : ApartmentDict) : List Str :=
  fieldnames.map (fun f => (d.lookup f).getD [])

/-- The row loop of the `DictWriter` under its default
`extrasaction='raise'`: each `writerow` first checks the record for keys
outside `fieldnames` and raises `ValueError` before writing anything of
that row; rows already written stay written.  Returns the rows that
reached the file and whether a `ValueError` was raised. -/
def dictWriterWrite (fieldnames : List Str) :
    List ApartmentDict → List (List Str) × Bool
  | [] => ([], false)
  | d :: ds =>
    if (dictKeys d).all (fun k => fieldnames.contains k) then
      ((dictRow fieldnames d) :: (dictWriterWrite fieldnames ds).1,
       (dictWriterWrite fieldnames ds).2)
    else ([], true)

/-- Lines 158–174 of `scrape_listings` on the exception-free path:
nothing at all happens for an empty batch (`if all_apartments:` guards
the whole block, so the file is not even opened or created); for a
non-empty batch, open in append mode (creating a missing file), write
the header row derived from the first record's keys only when the file
was missing or empty, then write one data row per record.  This is the
write as it completes when no record triggers the `DictWriter` key
check; `scrapeSaveFull` is the same block with that check included. -/
def scrapeSave (fs : FileState) (all_apartments : List ApartmentDict) : FileState :=
  match all_apartments with
  | [] => fs
  | first :: _ =>
    let fieldnames := dictKeys first
    let write_header := fs.isNone ∨ fs = some []
    let existing := fs.getD []
    some (existing ++ (if write_header then [fieldnames] else []) ++
      all_apartments.map (dictRow fieldnames))

/-- Lines 158–174 of `scrape_listings` in full: the header (when due) is
written first, then the rows one by one through `dictWriterWrite`; a
record with a key outside the first record's field set raises
`ValueError` mid-batch, in which case the `with` block still closes the
file, so the header and the rows written before the bad record persist.
Returns the resulting file state and whether the write raised. -/
def scrapeSaveFull (fs : FileState) (all_apartments : List ApartmentDict) :
    FileState × Bool :=
  match all_apartments with
  | [] => (fs, false)
  | first :: _ =>
    let fieldnames := dictKeys first
    let write_header := fs.isNone ∨ fs = some []
    let existing := fs.getD []
    let written := dictWriterWrite fieldnames all_apartments
    (some (existing ++ (if write_header then [fieldnames] else []) ++ written.1),
     written.2)

/-! ## Whole-run models with session traces -/

/-- Browser-session events of a `SSSBScraper.query` run. -/
inductive QEvent where
  | launch : QEvent
  | close : QEvent
deriving DecidableEq, Repr

/-- The error channel of `SSSBScraper.query`.  The source catches
`WebDriverException` inside `query` itself, so no run of the model ever
returns `error` — which is exactly what the propagation claims are
about. -/
inductive QueryError where
  | webDriverError : QueryError
deriving DecidableEq, Repr

/-- The external world a `SSSBScraper.query` run interacts with:
`createOk` — `_create_driver` succeeds (otherwise `webdriver.Chrome`
raises `WebDriverException`, caught at line 317, and `self.driver` is
still `None` so the `finally` block has nothing to quit); `navOk` —
`driver.get(url)` succeeds (otherwise `WebDriverException`, caught);
`markerAppears` — the `media-body` marker appears within the timeout
(otherwise `TimeoutException` is caught at line 278 and the empty list is
returned); `listingText` / `links` — the listing container text and the
detail hrefs; `detail` — what each detail-page navigation yields. -/
structure QueryEnv where
  createOk : Bool
  navOk : Bool
  markerAppears : Bool
  listingText : Str
  links : List Str
  detail : Str → DetailFetch
  fetch_closing_dates : Bool

/-- Model of `SSSBScraper.query`: create the driver, navigate, wait for the
marker, group the container text into listings, optionally enrich each
record with its closing date, and in every case run the `finally` block,
which quits the driver whenever one was created. -/
def queryRun (env : QueryEnv) : Except QueryError (List Housing) × List QEvent :=
  if ¬env.createOk then (Except.ok [], [])
  else if ¬env.navOk then (Except.ok [], [QEvent.launch, QEvent.close])
  else if ¬env.markerAppears then (Except.ok [], [QEvent.launch, QEvent.close])
  else
    let housings := queryParse env.links (env.listingText.splitOn '\n')
    let housings :=
      if env.fetch_closing_dates ∧ housings ≠ [] then
        enrichClosingDates env.detail housings
      else housings
    (Except.ok housings, [QEvent.launch, QEvent.close])

/-- Browser-session and navigation events of a `scrape_listings` run. -/
inductive SEvent where
  | launch : SEvent
  | fetchListings : SEvent
  | close : SEvent
deriving DecidableEq, Repr

/-- The uncaught exceptions a `scrape_listings` run can raise.
`authenticationFailure` stands for the `TimeoutException` /
`NoSuchElementException` raised when the login form's fields or button
are missing; `widgetMissing` for the `AttributeError` when the
membership widget is absent; `renderTimeout` for a timeout waiting for
the search button or the apartment list; `rowFailure` wraps a row's
`IndexError` / `ValueError`; `writeFailure` is the `ValueError` the
`DictWriter` raises on a record with keys outside the first record's
field set. -/
inductive SErr where
  | authenticationFailure : SErr
  | widgetMissing : SErr
  | renderTimeout : SErr
  | rowFailure : RowError → SErr
  | writeFailure : SErr
deriving DecidableEq, Repr

/-- The external world a `scrape_listings` run interacts with.  The
apartment-type filter step is taken in its default `"All"` configuration
(no interaction). -/
structure ScrapeEnv where
  logFieldAppears : Bool
  pwdFieldPresent : Bool
  loginButtonPresent : Bool
  widgetPresent : Bool
  searchButtonAppears : Bool
  apartmentListAppears : Bool
  apartments : List RawApartment
  consultationDate : Str
  creditDays : Str
  fileState : FileState

/-- Model of `scrape_listings` from `scraper/listings.py`, in source order: launch
Chrome, open the login page, wait for the `log` field, fill `log` and
`pwd`, click the login button, read the credit-days widget, navigate to
the listings page, click search, wait for `apartmentList`, parse every
apartment row, and append the batch to the store file.  The function has
no `try`/`except` and no `driver.quit()`: every failure propagates as an
exception and no exit path — not even the successful one — emits a
`close` event. -/
def scrapeRun (env : ScrapeEnv) : Except SErr FileState × List SEvent :=
  if ¬env.logFieldAppears then
    (Except.error SErr.authenticationFailure, [SEvent.launch])
  else if ¬env.pwdFieldPresent then
    (Except.error SErr.authenticationFailure, [SEvent.launch])
  else if ¬env.loginButtonPresent then
    (Except.error SErr.authenticationFailure, [SEvent.launch])
  else if ¬env.widgetPresent then
    (Except.error SErr.widgetMissing, [SEvent.launch])
  else if ¬env.searchButtonAppears then
    (Except.error SErr.renderTimeout, [SEvent.launch, SEvent.fetchListings])
  else if ¬env.apartmentListAppears then
    (Except.error SErr.renderTimeout, [SEvent.launch, SEvent.fetchListings])
  else
    match parseApartments env.consultationDate env.creditDays env.apartments with
    | Except.error e =>
      (Except.error (SErr.rowFailure e), [SEvent.launch, SEvent.fetchListings])
    | Except.ok infos =>
      if (scrapeSaveFull env.fileState infos).2 then
        (Except.error SErr.writeFailure, [SEvent.launch, SEvent.fetchListings])
      else
        (Except.ok (scrapeSaveFull env.fileState infos).1,
         [SEvent.launch, SEvent.fetchListings])

/-- Fold a query-run trace into (sessions live at the end, maximum
sessions simultaneously live). -/
def liveSteps (trace : List QEvent) : Nat × Nat :=
  trace.foldl
    (fun p e =>
      match e with
      | QEvent.launch => (p.1 + 1, max p.2 (p.1 + 1))
      | QEvent.close => (p.1 - 1, p.2))
    (0, 0)

/-- The same live-session fold for `scrape_listings` traces. -/
def sLiveSteps (trace : List SEvent) : Nat × Nat :=
  trace.foldl
    (fun p e =>
      match e with
      | SEvent.launch => (p.1 + 1, max p.2 (p.1 + 1))
      | SEvent.close => (p.1 - 1, p.2)
      | SEvent.fetchListings => p)
    (0, 0)

/-! ## General helper lemmas -/

theorem dropWhile_eq_self_of_all {p : Char → Bool} {l : Str}
    (h : ∀ c ∈ l, p c = false) : l.dropWhile p = l := by
  cases l with
  | nil => rfl
  | cons a t => simp [List.dropWhile_cons, h a (by simp)]

theorem pyStrip_eq_self_of_all {l : Str} (h : ∀ c ∈ l, c.isWhitespace = false) :
    pyStrip l = l := by
  rw [pyStrip, dropWhile_eq_self_of_all h,
    dropWhile_eq_self_of_all (fun c hc => h c (List.mem_reverse.mp hc)),
    List.reverse_reverse]

theorem pyStrip_cons_concat {c e : Char} {mid : Str}
    (hc : c.isWhitespace = false) (he : e.isWhitespace = false) :
    pyStrip (c :: (mid ++ [e])) = c :: (mid ++ [e]) := by
  rw [pyStrip]
  rw [List.dropWhile_cons, if_neg (by simp [hc])]
  have hrev : (c :: (mid ++ [e])).reverse = e :: (mid.reverse ++ [c]) := by
    simp
  rw [hrev, List.dropWhile_cons, if_neg (by simp [he]), ← hrev, List.reverse_reverse]

theorem mem_pyStrip {c : Char} {l : Str} (h : c ∈ pyStrip l) : c ∈ l := by
  rw [pyStrip] at h
  rw [List.mem_reverse] at h
  have h2 := (List.dropWhile_sublist _).subset h
  rw [List.mem_reverse] at h2
  exact (List.dropWhile_sublist _).subset h2

theorem splitOn_append_cons {c : Char} {xs : Str} (h : c ∉ xs) (as : Str) :
    (xs ++ c :: as).splitOn c = xs :: as.splitOn c := by
  have hp : ∀ x ∈ xs, ¬((x == c) = true) := fun x hx => by
    simp only [beq_iff_eq]
    exact fun e => h (e ▸ hx)
  simpa [List.splitOn] using List.splitOnP_first (· == c) xs hp c (by simp) as

theorem splitOn_eq_single {c : Char} {xs : Str} (h : c ∉ xs) : xs.splitOn c = [xs] := by
  have hp : ∀ x ∈ xs, ¬((x == c) = true) := fun x hx => by
    simp only [beq_iff_eq]
    exact fun e => h (e ▸ hx)
  simpa [List.splitOn] using List.splitOnP_eq_single (· == c) xs hp

theorem isDigit_ne_space {c : Char} (h : c.isDigit = true) : c ≠ ' ' := by
  rintro rfl; simp at h

theorem isDigit_ne_lparen {c : Char} (h : c.isDigit = true) : c ≠ '(' := by
  rintro rfl; simp at h

theorem isDigit_ne_rparen {c : Char} (h : c.isDigit = true) : c ≠ ')' := by
  rintro rfl; simp at h

theorem isDigit_not_whitespace {c : Char} (h : c.isDigit = true) :
    c.isWhitespace = false := by
  by_contra hw
  rw [Bool.not_eq_false] at hw
  rw [Char.isWhitespace] at hw
  simp only [Bool.or_eq_true, decide_eq_true_eq] at hw
  rcases hw with ((rfl | rfl) | rfl) | rfl <;> simp at h

theorem not_prefix_append {pat pre : Str} (suf : Str) (k : Nat)
    (hk1 : k ≤ pat.length) (hk2 : k ≤ pre.length)
    (hne : pat.take k ≠ pre.take k) : ¬ pat.isPrefixOf (pre ++ suf) := by
  intro hpre
  rw [List.isPrefixOf_iff_prefix] at hpre
  obtain ⟨r, hr⟩ := hpre
  apply hne
  have h : (pat ++ r).take k = (pre ++ suf).take k := by rw [hr]
  rw [List.take_append_eq_append_take, List.take_append_eq_append_take] at h
  simpa [Nat.sub_eq_zero_of_le hk1, Nat.sub_eq_zero_of_le hk2] using h

/-! ## C10 -/

/-- C10: when the parsed batch is empty, the `if all_apartments:` guard
skips the whole store block: the file state is unchanged for every
starting state, and in particular a missing file is not created, so a run
with zero listings never produces a header-only file. -/
theorem c10_empty_batch_writes_nothing :
    (∀ fs : FileState, scrapeSave fs [] = fs)
    ∧ scrapeSave (none : FileState) [] = none := by
  exact ⟨fun fs => rfl, rfl⟩

/-! ## C5 -/

theorem dictWriterWrite_of_all_known {fieldnames : List Str} :
    ∀ apts : List ApartmentDict,
      (∀ d ∈ apts, ((dictKeys d).all (fun k => fieldnames.contains k)) = true) →
      dictWriterWrite fieldnames apts = (apts.map (dictRow fieldnames), false) := by
  intro apts
  induction apts with
  | nil => intro _; rfl
  | cons d ds ih =>
    intro hall
    rw [dictWriterWrite, if_pos (hall d (by simp)),
      ih (fun x hx => hall x (by simp [hx]))]
    rfl

theorem scrapeSaveFull_of_all_known (fs : FileState) (a : ApartmentDict)
    (t : List ApartmentDict)
    (hall : ∀ d ∈ a :: t, ((dictKeys d).all (fun k => (dictKeys a).contains k)) = true) :
    scrapeSaveFull fs (a :: t) = (scrapeSave fs (a :: t), false) := by
  rw [scrapeSaveFull, scrapeSave, dictWriterWrite_of_all_known (a :: t) hall]

/-- Two same-keyed records and one record carrying an extra key `C`. -/
def c5Dict1 : ApartmentDict := [(toL "A", toL "1"), (toL "B", toL "2")]

/-- A record whose key set extends the first record's field set. -/
def c5DictExtra : ApartmentDict := [(toL "A", toL "3"), (toL "C", toL "4")]

/-- A second-batch record over the same field set as `c5Dict1`. -/
def c5Dict2 : ApartmentDict := [(toL "A", toL "9"), (toL "B", toL "8")]

/-- Counterexample to C5 as stated: writing the two-record batch whose
second record has a key (`C`) outside the first record's field set does
not produce the header followed by both data rows — the `DictWriter`
(default `extrasaction='raise'`) raises `ValueError` at that record, the
file is left with the header and only the first data row (2 rows, not
the claimed 1 + 2), and the write ends in the error. -/
theorem c5_counterexample :
    scrapeSaveFull none [c5Dict1, c5DictExtra]
      = (some [[toL "A", toL "B"], [toL "1", toL "2"]], true)
    ∧ ((scrapeSaveFull none [c5Dict1, c5DictExtra]).1.getD []).length = 2
    ∧ ((scrapeSaveFull none [c5Dict1, c5DictExtra]).1.getD []).length ≠ 1 + 2 := by
  exact ⟨rfl, rfl, by decide⟩

/-- The amended C5: for non-empty batches all of whose records keep
their keys within the first record's field set (so the `DictWriter` key
check passes), the store contract holds as claimed — a missing or empty
file gets the header row derived from the first record's field set
followed by the data rows, a non-empty file gets the data rows appended
only, the write raises nothing, and two successive writes of `m` and `n`
records starting from a missing file leave exactly 1 header row and
`m + n` data rows.  (A record with a key outside that field set instead
raises `ValueError` mid-batch, as `c5_counterexample` shows.) -/
theorem c5_incremental_store_amended (a b : ApartmentDict)
    (t u : List ApartmentDict)
    (h1 : ∀ d ∈ a :: t, ((dictKeys d).all (fun k => (dictKeys a).contains k)) = true)
    (h2 : ∀ d ∈ b :: u, ((dictKeys d).all (fun k => (dictKeys b).contains k)) = true) :
    scrapeSaveFull none (a :: t)
        = (some (dictKeys a :: (a :: t).map (dictRow (dictKeys a))), false)
    ∧ scrapeSaveFull (some []) (a :: t)
        = (some (dictKeys a :: (a :: t).map (dictRow (dictKeys a))), false)
    ∧ (∀ (r : List Str) (rows : List (List Str)),
        scrapeSaveFull (some (r :: rows)) (a :: t)
          = (some ((r :: rows) ++ (a :: t).map (dictRow (dictKeys a))), false))
    ∧ scrapeSaveFull (scrapeSaveFull none (a :: t)).1 (b :: u)
        = (some ((dictKeys a :: (a :: t).map (dictRow (dictKeys a)))
            ++ (b :: u).map (dictRow (dictKeys b))), false)
    ∧ ((scrapeSaveFull (scrapeSaveFull none (a :: t)).1 (b :: u)).1.getD []).length
        = 1 + (t.length + 1) + (u.length + 1) := by
  have hs1 : ∀ fs : FileState,
      scrapeSaveFull fs (a :: t) = (scrapeSave fs (a :: t), false) :=
    fun fs => scrapeSaveFull_of_all_known fs a t h1
  have hs2 : ∀ fs : FileState,
      scrapeSaveFull fs (b :: u) = (scrapeSave fs (b :: u), false) :=
    fun fs => scrapeSaveFull_of_all_known fs b u h2
  have hw1 : scrapeSave none (a :: t)
      = some (dictKeys a :: (a :: t).map (dictRow (dictKeys a))) := by
    simp [scrapeSave]
  refine ⟨?_, ?_, ?_, ?_, ?_⟩
  · rw [hs1, hw1]
  · rw [hs1]
    simp [scrapeSave]
  · intro r rows
    rw [hs1]
    simp [scrapeSave]
  · rw [hs1, hw1, hs2]
    simp [scrapeSave]
  · rw [hs1, hw1, hs2]
    simp [scrapeSave]
    omega

/-- Witness for the amended C5 at concrete same-schema batches of sizes
2 and 1. -/
theorem c5_witness :
    scrapeSaveFull none [c5Dict1, c5Dict1]
        = (some (dictKeys c5Dict1
            :: [c5Dict1, c5Dict1].map (dictRow (dictKeys c5Dict1))), false)
    ∧ ((scrapeSaveFull (scrapeSaveFull none [c5Dict1, c5Dict1]).1
          [c5Dict2]).1.getD []).length = 1 + (1 + 1) + (0 + 1) := by
  have h := c5_incremental_store_amended c5Dict1 c5Dict2 [c5Dict1] []
    (by decide) (by decide)
  exact ⟨h.1, h.2.2.2.2⟩

/-! ## C7 -/

theorem buildParams_mem (housing_type : Str) (max_rent : Option Int)
    (area : Option Str) :
    ∀ p ∈ buildParams housing_type max_rent area,
      (typeCode housing_type ≠ []
        ∧ p = toL "objektTyper=" ++ typeCode housing_type)
      ∨ (∃ n, max_rent = some n ∧ n ≠ 0 ∧ p = toL "hyraMax=" ++ intToStr n)
      ∨ (∃ a, area = some a ∧ a ≠ [] ∧ p = toL "omraden=" ++ a)
      ∨ p = toL "paginationantal=100" := by
  intro p hp
  simp only [buildParams] at hp
  rw [List.mem_filter] at hp
  obtain ⟨hmem, hne⟩ := hp
  simp only [decide_eq_true_eq] at hne
  simp only [List.mem_cons, List.not_mem_nil, or_false] at hmem
  rcases hmem with h | h | h | h
  · split at h
    · rename_i hguard
      exact Or.inl ⟨hguard, h⟩
    · exact absurd h hne
  · rcases max_rent with _ | n
    · exact absurd h hne
    · dsimp only at h
      split at h
      · rename_i hguard
        exact Or.inr (Or.inl ⟨n, rfl, hguard, h⟩)
      · exact absurd h hne
  · rcases area with _ | a
    · exact absurd h hne
    · dsimp only at h
      split at h
      · rename_i hguard
        exact Or.inr (Or.inr (Or.inl ⟨a, rfl, hguard, h⟩))
      · exact absurd h hne
  · exact Or.inr (Or.inr (Or.inr h))

theorem filter_four_getLast (e1 e2 e3 : Str) :
    (([e1, e2, e3, toL "paginationantal=100"] : List Str).filter
        (· ≠ [])).getLast? = some (toL "paginationantal=100") := by
  have h : ([e1, e2, e3, toL "paginationantal=100"] : List Str)
      = [e1, e2, e3] ++ [toL "paginationantal=100"] := rfl
  have h2 : (([toL "paginationantal=100"] : List Str).filter (· ≠ []))
      = [toL "paginationantal=100"] := by decide
  rw [h, List.filter_append, h2, List.getLast?_concat]

/-- C7: `_build_url` is a pure function of the filter tuple (the URL is
the base list URL plus the `&`-joined parameter list); no parameter is
ever the empty string; the fixed page-size parameter
`paginationantal=100` is always the final parameter; a housing type of
`all` (whose table entry is the empty code) or one missing from the code
table contributes no `objektTyper` parameter; an unset `max_rent` / `area`
contributes no `hyraMax` / `omraden` parameter. -/
theorem c7_build_url_contract (housing_type : Str) (max_rent : Option Int)
    (area : Option Str) :
    buildUrl housing_type max_rent area
      = LIST_URL ++ toL "?"
          ++ (toL "&").intercalate (buildParams housing_type max_rent area)
    ∧ (∀ p ∈ buildParams housing_type max_rent area, p ≠ [])
    ∧ (buildParams housing_type max_rent area).getLast?
        = some (toL "paginationantal=100")
    ∧ ((pyLower housing_type = toL "all"
          ∨ HOUSING_TYPE_CODES.lookup (pyLower housing_type) = none) →
        ∀ p ∈ buildParams housing_type max_rent area,
          ¬ (toL "objektTyper").isPrefixOf p)
    ∧ (max_rent = none →
        ∀ p ∈ buildParams housing_type max_rent area,
          ¬ (toL "hyraMax").isPrefixOf p)
    ∧ (area = none →
        ∀ p ∈ buildParams housing_type max_rent area,
          ¬ (toL "omraden").isPrefixOf p) := by
  refine ⟨rfl, ?_, ?_, ?_, ?_, ?_⟩
  · intro p hp
    simp only [buildParams] at hp
    rw [List.mem_filter] at hp
    simpa using hp.2
  · simp only [buildParams]
    exact filter_four_getLast _ _ _
  · intro hall p hp
    have htc : typeCode housing_type = [] := by
      rcases hall with h | h
      · rw [typeCode, h]; decide
      · rw [typeCode, h]; rfl
    rcases buildParams_mem housing_type max_rent area p hp with h | h | h | h
    · exact absurd htc h.1
    · obtain ⟨n, -, -, rfl⟩ := h
      exact not_prefix_append _ 1 (by decide) (by decide) (by decide)
    · obtain ⟨a, -, -, rfl⟩ := h
      exact not_prefix_append _ 2 (by decide) (by decide) (by decide)
    · rw [h]; decide
  · intro hmr p hp
    rcases buildParams_mem housing_type max_rent area p hp with h | h | h | h
    · obtain ⟨-, rfl⟩ := h
      exact not_prefix_append _ 1 (by decide) (by decide) (by decide)
    · obtain ⟨n, hn, -, -⟩ := h
      rw [hmr] at hn
      exact absurd hn (by simp)
    · obtain ⟨a, -, -, rfl⟩ := h
      exact not_prefix_append _ 1 (by decide) (by decide) (by decide)
    · rw [h]; decide
  · intro har p hp
    rcases buildParams_mem housing_type max_rent area p hp with h | h | h | h
    · obtain ⟨-, rfl⟩ := h
      exact not_prefix_append _ 2 (by decide) (by decide) (by decide)
    · obtain ⟨n, -, -, rfl⟩ := h
      exact not_prefix_append _ 1 (by decide) (by decide) (by decide)
    · obtain ⟨a, ha, -, -⟩ := h
      rw [har] at ha
      exact absurd ha (by simp)
    · rw [h]; decide

/-- Witness for C7 at the concrete tuple `("all", unset, unset)`: the
page-size parameter is last, and the parameter list carries no type, rent
or area filter prefixes on its (sole) member. -/
theorem c7_witness :
    (buildParams (toL "all") none none).getLast?
      = some (toL "paginationantal=100")
    ∧ ¬ (toL "objektTyper").isPrefixOf (toL "paginationantal=100")
    ∧ ¬ (toL "hyraMax").isPrefixOf (toL "paginationantal=100")
    ∧ ¬ (toL "omraden").isPrefixOf (toL "paginationantal=100") := by
  refine ⟨(c7_build_url_contract (toL "all") none none).2.2.1, ?_, ?_, ?_⟩
  · exact (c7_build_url_contract (toL "all") none none).2.2.2.1
      (Or.inl (by decide)) _ (by decide)
  · exact (c7_build_url_contract (toL "all") none none).2.2.2.2.1
      rfl _ (by decide)
  · exact (c7_build_url_contract (toL "all") none none).2.2.2.2.2
      rfl _ (by decide)

/-! ## C2 -/

theorem pyReplaceAux_nil (pat rep : Str) (fuel : Nat) :
    pyReplaceAux pat rep fuel [] = [] := by
  cases fuel <;> rfl

theorem pyReplaceAux_append_st {n : Str} (hn : ∀ c ∈ n, c ≠ ' ') :
    ∀ fuel, (n ++ toL " st").length ≤ fuel →
      pyReplaceAux (toL " st") [] fuel (n ++ toL " st") = n := by
  induction n with
  | nil =>
    intro fuel hf
    match fuel, hf with
    | f + 1, _ =>
      show pyReplaceAux (toL " st") [] (f + 1) (' ' :: 's' :: 't' :: []) = []
      rw [pyReplaceAux, if_pos (by decide)]
      show pyReplaceAux (toL " st") [] f [] = []
      exact pyReplaceAux_nil _ _ _
  | cons c t ih =>
    intro fuel hf
    match fuel, hf with
    | f + 1, hf =>
      show pyReplaceAux (toL " st") [] (f + 1) (c :: (t ++ toL " st")) = c :: t
      rw [pyReplaceAux, if_neg]
      · have hft : (t ++ toL " st").length ≤ f := by
          simp only [List.length_append, List.length_cons] at hf ⊢
          simpa using Nat.le_of_succ_le_succ hf
        rw [ih (fun x hx => hn x (List.mem_cons_of_mem c hx)) f hft]
      · have hc : c ≠ ' ' := hn c (List.mem_cons_self c t)
        show ¬ ((' ' :: 's' :: 't' :: []).isPrefixOf (c :: (t ++ toL " st")) = true)
        simp only [List.isPrefixOf, Bool.and_eq_true, beq_iff_eq]
        rintro ⟨rfl, -⟩
        exact hc rfl

theorem pyReplace_append_st {n : Str} (hn : ∀ c ∈ n, c ≠ ' ') :
    pyReplace (toL " st") [] (n ++ toL " st") = n := by
  rw [pyReplace, if_neg (by decide)]
  exact pyReplaceAux_append_st hn _ (Nat.le_refl _)

/-- The amended C2: for a compound token `"<d> (<n> st)"` with `d` a
non-empty digit run and `n` a digit run, the parsed pair is exactly
`(d, n)`; a token lacking `(` or `)` always yields an applicant count of
`"0"`; and the best bid equals the whitespace-stripped token whenever
that stripped token is non-empty and has no internal space (in general
the code takes the text before the first space, and an empty token
yields `"0"`). -/
theorem c2_queue_info_amended :
    (∀ d n : Str, d ≠ [] → (∀ c ∈ d, c.isDigit = true) →
      (∀ c ∈ n, c.isDigit = true) →
      parseQueueInfo (d ++ toL " (" ++ n ++ toL " st)") = (d, n))
    ∧ (∀ token : Str, ('(' ∉ token ∨ ')' ∉ token) →
        (parseQueueInfo token).2 = toL "0")
    ∧ (∀ token : Str, pyStrip token ≠ [] → (∀ c ∈ pyStrip token, c ≠ ' ') →
        (parseQueueInfo token).1 = pyStrip token) := by
  refine ⟨?_, ?_, ?_⟩
  · intro d n hd hdd hnd
    obtain ⟨c, d', rfl⟩ : ∃ c d', d = c :: d' := by
      cases d with
      | nil => exact absurd rfl hd
      | cons c d' => exact ⟨c, d', rfl⟩
    have hsp : ∀ x ∈ c :: d', x ≠ ' ' := fun x hx => isDigit_ne_space (hdd x hx)
    have hnsp : ∀ x ∈ n, x ≠ ' ' := fun x hx => isDigit_ne_space (hnd x hx)
    have hstrip : pyStrip ((c :: d') ++ toL " (" ++ n ++ toL " st)")
        = (c :: d') ++ toL " (" ++ n ++ toL " st)" := by
      have hshape : (c :: d') ++ toL " (" ++ n ++ toL " st)"
          = c :: ((d' ++ toL " (" ++ n ++ toL " st") ++ [')']) := by
        simp [toL]
      rw [hshape, pyStrip_cons_concat
        (isDigit_not_whitespace (hdd c (by simp))) (by decide), ← hshape]
    simp only [parseQueueInfo, hstrip]
    rw [Prod.mk.injEq]
    constructor
    · rw [if_pos (by simp)]
      have harr : (c :: d') ++ toL " (" ++ n ++ toL " st)"
          = (c :: d') ++ ' ' :: ('(' :: (n ++ toL " st)")) := by
        simp [toL]
      rw [harr, splitOn_append_cons (fun hx => hsp ' ' hx rfl)]
      rfl
    · rw [if_pos ?hcond]
      case hcond =>
        constructor
        · have : '(' ∈ (c :: d') ++ toL " (" ++ n ++ toL " st)" := by
            simp [toL]
          simpa using this
        · have : ')' ∈ (c :: d') ++ toL " (" ++ n ++ toL " st)" := by
            simp [toL]
          simpa using this
      have harr : (c :: d') ++ toL " (" ++ n ++ toL " st)"
          = ((c :: d') ++ [' ']) ++ '(' :: (n ++ toL " st)") := by
        simp [toL]
      have hlp : '(' ∉ (c :: d') ++ [' '] := by
        intro hx
        rcases List.mem_append.mp hx with h | h
        · exact isDigit_ne_lparen (hdd '(' h) rfl
        · simp at h
      have hlp2 : '(' ∉ n ++ toL " st)" := by
        intro hx
        rcases List.mem_append.mp hx with h | h
        · exact isDigit_ne_lparen (hnd '(' h) rfl
        · revert h; decide
      rw [harr, splitOn_append_cons hlp, splitOn_eq_single hlp2]
      have hgd : (((c :: d') ++ [' ']) :: [n ++ toL " st)"]).getD 1 []
          = n ++ toL " st)" := rfl
      rw [hgd]
      have harr2 : n ++ toL " st)" = (n ++ toL " st") ++ ')' :: [] := by
        simp [toL]
      have hrp : ')' ∉ n ++ toL " st" := by
        intro hx
        rcases List.mem_append.mp hx with h | h
        · exact isDigit_ne_rparen (hnd ')' h) rfl
        · revert h; decide
      rw [harr2, splitOn_append_cons hrp]
      have hhead : ((n ++ toL " st") :: ([] : Str).splitOn ')').headD []
          = n ++ toL " st" := rfl
      rw [hhead, pyReplace_append_st hnsp]
      exact pyStrip_eq_self_of_all
        (fun x hx => isDigit_not_whitespace (hnd x hx))
  · intro token htok
    have hnc : ¬ ((pyStrip token).contains '(' = true
        ∧ (pyStrip token).contains ')' = true) := by
      rintro ⟨h1, h2⟩
      rcases htok with h | h
      · exact h (mem_pyStrip (by simpa using h1))
      · exact h (mem_pyStrip (by simpa using h2))
    simp only [parseQueueInfo]
    rw [if_neg hnc]
  · intro token h1 h2
    simp only [parseQueueInfo]
    rw [if_pos h1, splitOn_eq_single (fun hx => h2 ' ' hx rfl)]
    rfl

/-- Counterexample to C2 as stated: the token `"12 34"` contains no
parenthesis, so the claim requires the best bid to be the token stripped
of whitespace (`"12 34"` itself), but the code takes only the text before
the first space (`"12"`).  The applicant count is `"0"` as claimed. -/
theorem c2_counterexample :
    ('(' ∉ toL "12 34") ∧ (')' ∉ toL "12 34")
    ∧ (parseQueueInfo (toL "12 34")).2 = toL "0"
    ∧ pyStrip (toL "12 34") = toL "12 34"
    ∧ (parseQueueInfo (toL "12 34")).1 = toL "12"
    ∧ (parseQueueInfo (toL "12 34")).1 ≠ pyStrip (toL "12 34") := by
  decide

/-- Witness for the amended C2 at the concrete tokens `"1234 (5 st)"`
and `"777"`. -/
theorem c2_witness :
    parseQueueInfo (toL "1234" ++ toL " (" ++ toL "5" ++ toL " st)")
      = (toL "1234", toL "5")
    ∧ (parseQueueInfo (toL "777")).2 = toL "0"
    ∧ (parseQueueInfo (toL "777")).1 = pyStrip (toL "777") := by
  refine ⟨c2_queue_info_amended.1 (toL "1234") (toL "5")
      (by decide) (by decide) (by decide),
    c2_queue_info_amended.2.1 (toL "777") (Or.inl (by decide)),
    c2_queue_info_amended.2.2 (toL "777") (by decide) (by decide)⟩

/-! ## C3 -/

/-- A well-formed apartment row: six data fields (plus one empty artifact
entry that the `data = [x for x in data if x != '']` filter removes), a
rent with a non-breaking space and a queue-days field with a
parenthesized applicant count. -/
def goodApartment : RawApartment :=
  { headers := [toL "Area", toL "Living space", toL "Rent", toL "Moving in",
      toL "Queue days", toL "Floor"]
    data := [toL "Lappis", toL "", toL "20m2", toL "5 600kr", toL "2024-01-01",
      toL "787 (14st)", toL "2"]
    title := some (toL "Lappis 12")
    address := some (toL "Professorsvagen 12") }

/-- The same row shape with a non-numeric queue-days field, on which
`int(re.sub(r"\s*\(.*\)", "", data[4]))` raises `ValueError`. -/
def badApartment : RawApartment :=
  { goodApartment with
    data := [toL "Lappis", toL "20m2", toL "5600kr", toL "2024-01-01",
      toL "abc", toL "2"] }

/-- A fully successful environment for `scrape_listings` except that the
second apartment row has a non-numeric queue-days field. -/
def c3Env : ScrapeEnv :=
  { logFieldAppears := true
    pwdFieldPresent := true
    loginButtonPresent := true
    widgetPresent := true
    searchButtonAppears := true
    apartmentListAppears := true
    apartments := [goodApartment, badApartment]
    consultationDate := toL "2024-05-01"
    creditDays := toL "900"
    fileState := none }

/-- C3 is violated by `scrape_listings`: the good row alone parses, but a
batch containing one row whose queue-days field fails numeric coercion
produces an uncaught `ValueError` that aborts the whole batch — the good
record is lost and the run ends in an error, with nothing written to the
store.  (`_parse_listing_row` in `query_sssb.py` does catch per-row
errors, but it performs no numeric coercion; the only coercion in the
repository is the uncaught one in `scrape_listings`.) -/
theorem c3_row_failure_aborts_batch :
    (parseApartment (toL "2024-05-01") (toL "900") goodApartment).isOk = true
    ∧ parseApartments (toL "2024-05-01") (toL "900") [goodApartment, badApartment]
        = Except.error RowError.valueError
    ∧ (scrapeRun c3Env).1 = Except.error (SErr.rowFailure RowError.valueError)
    ∧ scrapeRun c3Env
        = (Except.error (SErr.rowFailure RowError.valueError),
           [SEvent.launch, SEvent.fetchListings]) := by
  exact ⟨by decide, by rfl, by rfl, by rfl⟩

/-! ## C4 -/

/-- C4: the enrichment loop touches nothing but `closing_date` (erasing
the closing dates of input and output yields the same list, so every
record survives in order), each record's closing date is exactly its own
detail fetch's result, and a record whose detail fetch fails gets an
absent closing date — independent of every other record. -/
theorem c4_enrichment_isolates_failures (env : Str → DetailFetch)
    (housings : List Housing) :
    (enrichClosingDates env housings).map eraseClosingDate
        = housings.map eraseClosingDate
    ∧ (enrichClosingDates env housings).map Housing.closing_date
        = housings.map (getClosingDate env)
    ∧ ∀ h ∈ housings, env h.link = DetailFetch.fail →
        getClosingDate env h = none := by
  refine ⟨?_, ?_, ?_⟩
  · rw [enrichClosingDates, List.map_map]
    rfl
  · rw [enrichClosingDates, List.map_map]
    rfl
  · intro h _ hfail
    rw [getClosingDate, hfail]

/-- The five-record enrichment scenario: link `L3`'s detail fetch fails,
the others serve a page whose deadline text matches the date pattern. -/
def c4Detail : Str → DetailFetch := fun link =>
  if link = toL "L3" then DetailFetch.fail
  else DetailFetch.page (some (toL "Application deadline: 2024-01-15 at 12:00"))

/-- Base record for the C4 scenario; the five records differ in link. -/
def c4Record (link : String) : Housing :=
  { name := toL "Area - Addr", area := toL "Area", address := toL "Addr"
    housing_type := toL "Apartment", floor := toL "2", living_space := toL "20"
    rent := toL "5600", move_in_date := toL "2024-02-01"
    queue_days := toL "787", applicants := toL "14", link := toL link }

/-- The C4 batch: records 1–5 with links `L1`–`L5`. -/
def c4Batch : List Housing :=
  [c4Record "L1", c4Record "L2", c4Record "L3", c4Record "L4", c4Record "L5"]

/-- Witness for C4 at the scenario of the spec: record 3's fetch fails;
all five records survive unchanged apart from closing dates, and every
record's closing date is its own fetch result (so record 3's is absent). -/
theorem c4_witness :
    (enrichClosingDates c4Detail c4Batch).map eraseClosingDate
        = c4Batch.map eraseClosingDate
    ∧ (enrichClosingDates c4Detail c4Batch).map Housing.closing_date
        = c4Batch.map (getClosingDate c4Detail)
    ∧ getClosingDate c4Detail (c4Record "L3") = none := by
  refine ⟨(c4_enrichment_isolates_failures c4Detail c4Batch).1,
    (c4_enrichment_isolates_failures c4Detail c4Batch).2.1,
    (c4_enrichment_isolates_failures c4Detail c4Batch).2.2 (c4Record "L3")
      (by decide) (by decide)⟩

/-! ## C6 -/

/-- A query environment whose listing-page navigation fails with a
`WebDriverException` (the driver itself was created). -/
def c6QueryEnv : QueryEnv :=
  { createOk := true
    navOk := false
    markerAppears := true
    listingText := []
    links := []
    detail := fun _ => DetailFetch.fail
    fetch_closing_dates := true }

/-- Counterexample to C6 as stated: in `SSSBScraper.query` a failure
loading the listing page (a `WebDriverException` from `driver.get`) does
NOT propagate to the caller — the handler at line 317 swallows it and the
run returns normally with an empty result (after quitting the driver),
rather than aborting. -/
theorem c6_counterexample :
    queryRun c6QueryEnv
      = (Except.ok ([] : List Housing), [QEvent.launch, QEvent.close]) := by
  rfl

/-- The amended C6: in the authenticated pipeline the claim holds — a
missing `log` field, `pwd` field or login button makes `scrape_listings`
abort with the authentication failure before any listing fetch, and
`login` in `auth/login.py` fails with `LinkNotFoundError` when the form
or either credential field is missing — while in `SSSBScraper.query` a
`WebDriverException` creating the browser or loading the listing page is
caught and yields an empty normal result instead of propagating. -/
theorem c6_session_failures_amended :
    (∀ env : ScrapeEnv,
      (¬env.logFieldAppears ∨ ¬env.pwdFieldPresent ∨ ¬env.loginButtonPresent) →
        (scrapeRun env).1 = Except.error SErr.authenticationFailure
        ∧ SEvent.fetchListings ∉ (scrapeRun env).2)
    ∧ (∀ page : LoginPage,
        (¬page.hasLoginForm ∨ ¬page.hasLogField ∨ ¬page.hasPwdField) →
          loginRun page = Except.error LoginError.linkNotFound)
    ∧ (∀ env : QueryEnv, (¬env.createOk ∨ ¬env.navOk) →
        (queryRun env).1 = Except.ok []) := by
  refine ⟨?_, ?_, ?_⟩
  · intro env h
    by_cases h1 : env.logFieldAppears
    · by_cases h2 : env.pwdFieldPresent
      · by_cases h3 : env.loginButtonPresent
        · tauto
        · rw [scrapeRun, if_neg (by simp [h1]), if_neg (by simp [h2]),
            if_pos (by simp [h3])]
          exact ⟨rfl, by decide⟩
      · rw [scrapeRun, if_neg (by simp [h1]), if_pos (by simp [h2])]
        exact ⟨rfl, by decide⟩
    · rw [scrapeRun, if_pos (by simp [h1])]
      exact ⟨rfl, by decide⟩
  · intro page h
    by_cases h1 : page.hasLoginForm
    · by_cases h2 : page.hasLogField
      · by_cases h3 : page.hasPwdField
        · tauto
        · rw [loginRun, if_neg (by simp [h1]), if_neg (by simp [h2]),
            if_pos (by simp [h3])]
      · rw [loginRun, if_neg (by simp [h1]), if_pos (by simp [h2])]
    · rw [loginRun, if_pos (by simp [h1])]
  · intro env h
    by_cases h1 : env.createOk
    · have h2 : ¬env.navOk := by tauto
      rw [queryRun, if_neg (by simp [h1]), if_pos (by simp [h2])]
    · rw [queryRun, if_pos (by simp [h1])]

/-- A scrape environment whose login form lacks the `pwd` field. -/
def c6ScrapeEnv : ScrapeEnv :=
  { logFieldAppears := true
    pwdFieldPresent := false
    loginButtonPresent := true
    widgetPresent := true
    searchButtonAppears := true
    apartmentListAppears := true
    apartments := []
    consultationDate := toL "2024-05-01"
    creditDays := toL "900"
    fileState := none }

/-- A login page missing the `pwd` input. -/
def c6LoginPage : LoginPage :=
  { hasLoginForm := true, hasLogField := true, hasPwdField := false }

/-- Witness for the amended C6: the concrete missing-credential scenario
fails with the authentication error before any listing fetch, `login`
raises `LinkNotFoundError`, and the concrete failed-navigation query run
returns an empty normal result. -/
theorem c6_witness :
    ((scrapeRun c6ScrapeEnv).1 = Except.error SErr.authenticationFailure
      ∧ SEvent.fetchListings ∉ (scrapeRun c6ScrapeEnv).2)
    ∧ loginRun c6LoginPage = Except.error LoginError.linkNotFound
    ∧ (queryRun c6QueryEnv).1 = Except.ok [] := by
  refine ⟨c6_session_failures_amended.1 c6ScrapeEnv
      (Or.inr (Or.inl (by decide))),
    c6_session_failures_amended.2.1 c6LoginPage (Or.inr (Or.inr (by decide))),
    c6_session_failures_amended.2.2 c6QueryEnv (Or.inr (by decide))⟩

/-! ## C9 -/

/-- A fully successful `scrape_listings` environment with one parseable
apartment row and a missing store file. -/
def c9ScrapeEnv : ScrapeEnv :=
  { logFieldAppears := true
    pwdFieldPresent := true
    loginButtonPresent := true
    widgetPresent := true
    searchButtonAppears := true
    apartmentListAppears := true
    apartments := [goodApartment]
    consultationDate := toL "2024-05-01"
    creditDays := toL "900"
    fileState := none }

/-- C9 against the code: every `SSSBScraper.query` run is well scoped —
at most one session is ever live and the `finally` block leaves zero live
sessions whenever the run ends (a session having existed exactly when
driver creation succeeded).  But `scrape_listings` never calls
`driver.quit()`: even a completely successful run (this one parses its
row and writes the store) ends with its session still live and emits no
close event, so the claimed teardown on every exit path fails. -/
theorem c9_session_teardown :
    (∀ env : QueryEnv,
      liveSteps (queryRun env).2 = (0, bif env.createOk then 1 else 0))
    ∧ sLiveSteps (scrapeRun c9ScrapeEnv).2 = (1, 1)
    ∧ SEvent.close ∉ (scrapeRun c9ScrapeEnv).2
    ∧ (scrapeRun c9ScrapeEnv).1.isOk = true := by
  refine ⟨?_, by rfl, by decide, by rfl⟩
  intro env
  by_cases h1 : env.createOk
  · by_cases h2 : env.navOk
    · by_cases h3 : env.markerAppears
      · rw [queryRun, if_neg (by simp [h1]), if_neg (by simp [h2]),
          if_neg (by simp [h3])]
        simp [h1, liveSteps]
      · rw [queryRun, if_neg (by simp [h1]), if_neg (by simp [h2]),
          if_pos (by simp [h3])]
        simp [h1, liveSteps]
    · rw [queryRun, if_neg (by simp [h1]), if_pos (by simp [h2])]
      simp [h1, liveSteps]
  · rw [queryRun, if_pos (by simp [h1])]
    simp [h1, liveSteps]

/-! ## C1 -/

theorem intercalate_splitOn_newline {chunk : List Str}
    (hc : ∀ r ∈ chunk, '\n' ∉ r) (hne : chunk ≠ []) :
    ((toL "\n").intercalate chunk).splitOn '\n' = chunk := by
  have h : toL "\n" = ['\n'] := rfl
  rw [h]
  exact List.splitOn_intercalate chunk '\n' hc hne

theorem parseListingRow_of_eight {chunk : List Str}
    (hc : ∀ r ∈ chunk, '\n' ∉ r) (hlen : chunk.length = 8) (link : Str) :
    ∃ h, parseListingRow ((toL "\n").intercalate chunk) link = some h
      ∧ h.link = link := by
  have hne : chunk ≠ [] := by
    intro he
    rw [he] at hlen
    simp at hlen
  rw [parseListingRow]
  rw [intercalate_splitOn_newline hc hne]
  rw [if_neg (by omega)]
  exact ⟨_, rfl, rfl⟩

theorem parseListingRow_link_eq {row_text link : Str} {h : Housing}
    (hp : parseListingRow row_text link = some h) : h.link = link := by
  rw [parseListingRow] at hp
  split at hp
  · exact absurd hp (by simp)
  · rw [Option.some_inj] at hp
    rw [← hp]

theorem queryParseFrom_map_link (rows : List Str)
    (hrows : ∀ r ∈ rows, '\n' ∉ r) :
    ∀ (links : List Str) (i : Nat),
      rows.length = FIELDS_PER_LISTING * (i + links.length) →
      (queryParseFrom links rows i).map Housing.link = links := by
  intro links
  induction links with
  | nil => intro i _; rfl
  | cons l ls ih =>
    intro i h
    have hcond : i * FIELDS_PER_LISTING + FIELDS_PER_LISTING ≤ rows.length := by
      simp only [FIELDS_PER_LISTING] at h ⊢
      simp only [List.length_cons] at h
      omega
    rw [queryParseFrom, if_pos hcond]
    have hlen8 : ((rows.drop (i * FIELDS_PER_LISTING)).take
        FIELDS_PER_LISTING).length = 8 := by
      simp only [List.length_take, List.length_drop, FIELDS_PER_LISTING]
      simp only [FIELDS_PER_LISTING] at hcond
      omega
    have hcsub : ∀ r ∈ (rows.drop (i * FIELDS_PER_LISTING)).take
        FIELDS_PER_LISTING, '\n' ∉ r :=
      fun r hr => hrows r (List.drop_subset _ _ (List.take_subset _ _ hr))
    obtain ⟨h0, hsome, hlink⟩ := parseListingRow_of_eight hcsub hlen8 l
    rw [hsome]
    rw [List.map_cons, hlink]
    congr 1
    apply ih
    simp only [FIELDS_PER_LISTING] at h ⊢
    simp only [List.length_cons] at h
    omega

theorem queryParseFrom_length (rows : List Str)
    (hrows : ∀ r ∈ rows, '\n' ∉ r) :
    ∀ (links : List Str) (i : Nat),
      (queryParseFrom links rows i).length
        = min links.length (rows.length / FIELDS_PER_LISTING - i) := by
  intro links
  induction links with
  | nil => intro i; simp [queryParseFrom]
  | cons l ls ih =>
    intro i
    have hiff : i + 1 ≤ rows.length / FIELDS_PER_LISTING
        ↔ (i + 1) * FIELDS_PER_LISTING ≤ rows.length :=
      Nat.le_div_iff_mul_le (by simp [FIELDS_PER_LISTING])
    by_cases hcond : i * FIELDS_PER_LISTING + FIELDS_PER_LISTING ≤ rows.length
    · rw [queryParseFrom, if_pos hcond]
      have hlen8 : ((rows.drop (i * FIELDS_PER_LISTING)).take
          FIELDS_PER_LISTING).length = 8 := by
        simp only [List.length_take, List.length_drop, FIELDS_PER_LISTING]
        simp only [FIELDS_PER_LISTING] at hcond
        omega
      have hcsub : ∀ r ∈ (rows.drop (i * FIELDS_PER_LISTING)).take
          FIELDS_PER_LISTING, '\n' ∉ r :=
        fun r hr => hrows r (List.drop_subset _ _ (List.take_subset _ _ hr))
      obtain ⟨h0, hsome, -⟩ := parseListingRow_of_eight hcsub hlen8 l
      rw [hsome]
      rw [List.length_cons, ih (i + 1)]
      have hK : i + 1 ≤ rows.length / FIELDS_PER_LISTING := by
        rw [hiff]
        simp only [FIELDS_PER_LISTING] at hcond ⊢
        omega
      simp only [List.length_cons]
      omega
    · rw [queryParseFrom, if_neg hcond]
      rw [ih (i + 1)]
      have hK : ¬ (i + 1 ≤ rows.length / FIELDS_PER_LISTING) := by
        rw [hiff]
        simp only [FIELDS_PER_LISTING] at hcond ⊢
        omega
      simp only [List.length_cons]
      omega

theorem queryParseFrom_link_mem (rows : List Str) :
    ∀ (links : List Str) (i : Nat) (h : Housing),
      h ∈ queryParseFrom links rows i → h.link ∈ links := by
  intro links
  induction links with
  | nil => intro i h hm; simp [queryParseFrom] at hm
  | cons l ls ih =>
    intro i h hm
    rw [queryParseFrom] at hm
    split at hm
    · split at hm
      · rename_i h0 hsome
        rcases List.mem_cons.mp hm with rfl | hm2
        · rw [parseListingRow_link_eq hsome]
          exact List.mem_cons_self _ _
        · exact List.mem_cons_of_mem _ (ih (i + 1) h hm2)
      · exact List.mem_cons_of_mem _ (ih (i + 1) h hm)
    · exact List.mem_cons_of_mem _ (ih (i + 1) h hm)

/-- C1: for rows taken from a newline split (so no row contains a
newline) and non-empty detail links: when the flat line count is exactly
8 times the link count, the parser emits one record per link, in link
order, each record carrying its own (non-empty) link; and in general the
record count is `min (number of links) (line count / 8)` — a trailing
partial group of fewer than 8 lines is dropped, never padded. -/
theorem c1_flat_token_grouping (links rows : List Str)
    (hrows : ∀ r ∈ rows, '\n' ∉ r) (hlinks : ∀ l ∈ links, l ≠ []) :
    (rows.length = FIELDS_PER_LISTING * links.length →
      (queryParse links rows).map Housing.link = links)
    ∧ (queryParse links rows).length
        = min links.length (rows.length / FIELDS_PER_LISTING)
    ∧ ∀ h ∈ queryParse links rows, h.link ≠ [] := by
  refine ⟨?_, ?_, ?_⟩
  · intro hl
    exact queryParseFrom_map_link rows hrows links 0 (by simpa using hl)
  · have h := queryParseFrom_length rows hrows links 0
    simpa using h
  · intro h hm
    exact hlinks _ (queryParseFrom_link_mem rows links 0 h hm)

/-- The C1 witness inputs: two links and sixteen newline-free lines. -/
def c1Links : List Str := [toL "http://sssb.se/a1", toL "http://sssb.se/a2"]

/-- Sixteen flat text lines (two 8-line listings). -/
def c1Rows : List Str :=
  [toL "Lappis", toL "Professorsvagen 1", toL "Apartment", toL "2",
   toL "20m2", toL "5600kr", toL "2024-02-01", toL "787 (14 st)",
   toL "Idun", toL "Korsbarsvagen 2", toL "Studio", toL "3",
   toL "18m2", toL "5100kr", toL "2024-03-01", toL "650 (3 st)"]

/-- Witness for C1 at a concrete two-listing page. -/
theorem c1_witness :
    (queryParse c1Links c1Rows).map Housing.link = c1Links
    ∧ (queryParse c1Links c1Rows).length
        = min c1Links.length (c1Rows.length / FIELDS_PER_LISTING) := by
  have h := c1_flat_token_grouping c1Links c1Rows (by decide) (by decide)
  exact ⟨h.1 (by decide), h.2.1⟩

/-! ## C8 -/

theorem parseQuoted_cons_ne {c : Char} (t : Str) (hc : c ≠ '"') :
    parseQuoted (c :: t) = (c :: (parseQuoted t).1, (parseQuoted t).2) := by
  rw [parseQuoted.eq_def]
  split
  · rename_i heq
    exact absurd heq (by simp)
  · rename_i t' heq
    injection heq with h1 h2
    exact absurd h1 hc
  · rename_i t' heq
    injection heq with h1 h2
    exact absurd h1 hc
  · rename_i c' t' g1 g2 heq
    injection heq with h1 h2
    subst h1
    subst h2
    rfl

theorem parseQuoted_quote_cons_ne {c : Char} (t : Str) (hc : c ≠ '"') :
    parseQuoted ('"' :: c :: t) = ([], c :: t) := by
  rw [parseQuoted.eq_def]
  split
  · rename_i heq
    exact absurd heq (by simp)
  · rename_i t' heq
    injection heq with h1 h2
    injection h2 with h3 h4
    exact absurd h3 hc
  · rename_i t' heq
    injection heq with h1 h2
    subst h2
    rfl
  · rename_i c' t' g1 g2 heq
    injection heq with h1 h2
    exact absurd h1.symm g2

theorem parseQuoted_escape (f : Str) : ∀ rest : Str, (∀ u, rest ≠ '"' :: u) →
    parseQuoted (escapeQuotes f ++ '"' :: rest) = (f, rest) := by
  induction f with
  | nil =>
    intro rest hrest
    show parseQuoted ('"' :: rest) = ([], rest)
    cases rest with
    | nil => rfl
    | cons c t =>
      have hc : c ≠ '"' := fun h => hrest t (by rw [h])
      exact parseQuoted_quote_cons_ne t hc
  | cons c f' ih =>
    intro rest hrest
    by_cases hc : c = '"'
    · subst hc
      have hesc : escapeQuotes ('"' :: f') = '"' :: '"' :: escapeQuotes f' := by
        simp [escapeQuotes]
      rw [hesc]
      show parseQuoted
          ('"' :: '"' :: (escapeQuotes f' ++ '"' :: rest)) = ('"' :: f', rest)
      rw [show parseQuoted ('"' :: '"' :: (escapeQuotes f' ++ '"' :: rest))
          = ('"' :: (parseQuoted (escapeQuotes f' ++ '"' :: rest)).1,
             (parseQuoted (escapeQuotes f' ++ '"' :: rest)).2) from rfl]
      rw [ih rest hrest]
    · have hesc : escapeQuotes (c :: f') = c :: escapeQuotes f' := by
        simp [escapeQuotes, hc]
      rw [hesc]
      show parseQuoted (c :: (escapeQuotes f' ++ '"' :: rest)) = (c :: f', rest)
      rw [parseQuoted_cons_ne _ hc, ih rest hrest]

theorem parseField_eq_take_drop {s : Str} (hs : ∀ u, s ≠ '"' :: u) :
    parseField s = (s.takeWhile (fun c => !(isFieldEnd c)),
      s.dropWhile (fun c => !(isFieldEnd c))) := by
  rw [parseField.eq_def]
  split
  · rename_i t
    exact absurd rfl (hs t)
  · rfl

theorem take_drop_not_fieldEnd (f : Str) (hf : ∀ c ∈ f, isFieldEnd c = false) :
    ∀ rest : Str, (rest = [] ∨ ∃ c t, rest = c :: t ∧ isFieldEnd c = true) →
      (f ++ rest).takeWhile (fun c => !(isFieldEnd c)) = f
      ∧ (f ++ rest).dropWhile (fun c => !(isFieldEnd c)) = rest := by
  induction f with
  | nil =>
    intro rest hrest
    rcases hrest with rfl | ⟨c, t, rfl, hce⟩
    · exact ⟨rfl, rfl⟩
    · simp [List.takeWhile_cons, List.dropWhile_cons, hce]
  | cons a f' ih =>
    intro rest hrest
    have ha := hf a (by simp)
    obtain ⟨h1, h2⟩ := ih (fun c hc => hf c (by simp [hc])) rest hrest
    constructor
    · rw [List.cons_append, List.takeWhile_cons, if_pos (by simp [ha]), h1]
    · rw [List.cons_append, List.dropWhile_cons, if_pos (by simp [ha]), h2]

theorem needsQuote_false_facts {f : Str} (hq : needsQuote f = false) :
    ∀ c ∈ f, isFieldEnd c = false ∧ c ≠ '"' := by
  intro c hc
  have hcc := (List.any_eq_false.mp hq) c hc
  simp only [Bool.or_eq_true, decide_eq_true_eq, not_or] at hcc
  obtain ⟨⟨⟨h1, h2⟩, h3⟩, h4⟩ := hcc
  exact ⟨by simp [isFieldEnd, h1, h3, h4], h2⟩

theorem parseField_encodeField (f : Str) (rest : Str)
    (hrest : rest = [] ∨ ∃ c t, rest = c :: t ∧ isFieldEnd c = true) :
    parseField (encodeField f ++ rest) = (f, rest) := by
  have hrq : ∀ u, rest ≠ '"' :: u := by
    rcases hrest with rfl | ⟨c, t, rfl, hce⟩
    · simp
    · intro u hu
      injection hu with hu1 _
      rw [hu1] at hce
      exact absurd hce (by decide)
  rw [encodeField]
  by_cases hq : needsQuote f = true
  · rw [if_pos hq]
    show parseQuoted ((escapeQuotes f ++ ['"']) ++ rest) = (f, rest)
    rw [List.append_assoc]
    exact parseQuoted_escape f rest hrq
  · rw [if_neg hq]
    have hf := needsQuote_false_facts (Bool.not_eq_true _ ▸ hq)
    have hsq : ∀ u, f ++ rest ≠ '"' :: u := by
      intro u hu
      cases f with
      | nil =>
        rw [List.nil_append] at hu
        exact hrq u hu
      | cons a f' =>
        rw [List.cons_append] at hu
        injection hu with h1 _
        exact (hf a (by simp)).2 h1
    rw [parseField_eq_take_drop hsq]
    obtain ⟨h1, h2⟩ :=
      take_drop_not_fieldEnd f (fun c hc => (hf c hc).1) rest hrest
    rw [h1, h2]

theorem encodeRow_single (f : Str) : encodeRow [f] = encodeField f := by
  simp [encodeRow, List.intercalate]

theorem encodeRow_cons_cons (f g : Str) (t : List Str) :
    encodeRow (f :: g :: t) = encodeField f ++ ',' :: encodeRow (g :: t) := by
  simp only [encodeRow, List.map_cons, List.intercalate,
    List.intersperse_cons_cons, List.flatten_cons]
  rfl

theorem parseRecord_encodeRow (tail rem : Str)
    (htail : (∃ u, tail = '\r' :: '\n' :: u ∧ rem = u)
      ∨ (tail = ['\r'] ∧ rem = [])) :
    ∀ r : List Str, r ≠ [] → parseRecord (encodeRow r ++ tail) = (r, rem) := by
  have htail_end : tail = [] ∨ ∃ c t, tail = c :: t ∧ isFieldEnd c = true := by
    rcases htail with ⟨u, rfl, rfl⟩ | ⟨rfl, rfl⟩
    · exact Or.inr ⟨'\r', _, rfl, by decide⟩
    · exact Or.inr ⟨'\r', _, rfl, by decide⟩
  intro r
  induction r with
  | nil => intro hr; exact absurd rfl hr
  | cons f r' ih =>
    intro _
    cases r' with
    | nil =>
      rw [encodeRow_single]
      have hfield := parseField_encodeField f tail htail_end
      rcases htail with ⟨u, rfl, rfl⟩ | ⟨rfl, rfl⟩
      · have h2 : (parseField (encodeField f ++ '\r' :: '\n' :: rem)).2
            = '\r' :: '\n' :: rem := by rw [hfield]
        rw [parseRecord_crlf h2, hfield]
      · have h2 : (parseField (encodeField f ++ ['\r'])).2 = '\r' :: [] := by
          rw [hfield]
        rw [parseRecord_cr h2 (fun v hv => by simp at hv), hfield]
    | cons g r'' =>
      rw [encodeRow_cons_cons]
      have hassoc : (encodeField f ++ ',' :: encodeRow (g :: r'')) ++ tail
          = encodeField f ++ ',' :: (encodeRow (g :: r'') ++ tail) := by
        simp
      rw [hassoc]
      have hfield := parseField_encodeField f
        (',' :: (encodeRow (g :: r'') ++ tail))
        (Or.inr ⟨',', _, rfl, by decide⟩)
      have h2 : (parseField (encodeField f
          ++ ',' :: (encodeRow (g :: r'') ++ tail))).2
          = ',' :: (encodeRow (g :: r'') ++ tail) := by rw [hfield]
      rw [parseRecord_comma h2, ih (by simp), hfield]

/-- The CSV text that `format_csv` actually emits: every row terminated
by `"\r\n"` except that the final `'\n'` has been removed by
`rstrip('\n')`, leaving a bare `'\r'` after the last row. -/
def csvLines : List (List Str) → Str
  | [] => []
  | [r] => encodeRow r ++ ['\r']
  | r :: rs => encodeRow r ++ '\r' :: '\n' :: csvLines rs

theorem csvLines_ne_nil (r : List Str) (rs : List (List Str)) :
    csvLines (r :: rs) ≠ [] := by
  cases rs with
  | nil => simp [csvLines]
  | cons r2 rs2 => simp [csvLines]

theorem pyRstripNl_append {b : Str} (hb : pyRstripNl b ≠ []) (a : Str) :
    pyRstripNl (a ++ b) = a ++ pyRstripNl b := by
  have hne : (b.reverse.dropWhile (· = '\n')).isEmpty = false := by
    rw [pyRstripNl] at hb
    simp only [List.isEmpty_eq_false]
    intro hx
    rw [hx] at hb
    simp at hb
  rw [pyRstripNl, List.reverse_append, List.dropWhile_append, if_neg (by simp [hne])]
  rw [List.reverse_append, List.reverse_reverse]
  rfl

theorem pyRstripNl_crlf (x : Str) : pyRstripNl (x ++ ['\r', '\n']) = x ++ ['\r'] := by
  rw [pyRstripNl]
  have h1 : (x ++ ['\r', '\n']).reverse = '\n' :: '\r' :: x.reverse := by
    simp
  rw [h1, List.dropWhile_cons, if_pos (by simp), List.dropWhile_cons,
    if_neg (by simp)]
  simp

theorem pyRstripNl_encodeCsv : ∀ rows : List (List Str),
    pyRstripNl (encodeCsv rows) = csvLines rows := by
  intro rows
  induction rows with
  | nil => rfl
  | cons r rs ih =>
    cases rs with
    | nil =>
      show pyRstripNl (encodeCsv [r]) = encodeRow r ++ ['\r']
      have h1 : encodeCsv [r] = encodeRow r ++ ['\r', '\n'] := by
        simp [encodeCsv]
      rw [h1, pyRstripNl_crlf]
    | cons r2 rs2 =>
      have h1 : encodeCsv (r :: r2 :: rs2)
          = (encodeRow r ++ ['\r', '\n']) ++ encodeCsv (r2 :: rs2) := by
        simp [encodeCsv]
      rw [h1, pyRstripNl_append (by rw [ih]; exact csvLines_ne_nil r2 rs2), ih]
      show encodeRow r ++ ['\r', '\n'] ++ csvLines (r2 :: rs2)
          = csvLines (r :: r2 :: rs2)
      rw [show csvLines (r :: r2 :: rs2)
          = encodeRow r ++ '\r' :: '\n' :: csvLines (r2 :: rs2) from rfl]
      simp

theorem parseCsv_csvLines : ∀ rows : List (List Str), (∀ r ∈ rows, r ≠ []) →
    parseCsv (csvLines rows) = rows := by
  intro rows
  induction rows with
  | nil =>
    intro _
    rw [show csvLines [] = [] from rfl, parseCsv.eq_def]
    simp
  | cons r rs ih =>
    intro hall
    cases rs with
    | nil =>
      have hrec := parseRecord_encodeRow ['\r'] [] (Or.inr ⟨rfl, rfl⟩)
        r (hall r (by simp))
      rw [show csvLines [r] = encodeRow r ++ ['\r'] from rfl]
      rw [parseCsv.eq_def, dif_neg (by simp), hrec]
      rw [show parseCsv [] = [] from by rw [parseCsv.eq_def]; simp]
    | cons r2 rs2 =>
      have hrec := parseRecord_encodeRow ('\r' :: '\n' :: csvLines (r2 :: rs2))
        (csvLines (r2 :: rs2)) (Or.inl ⟨_, rfl, rfl⟩) r (hall r (by simp))
      rw [show csvLines (r :: r2 :: rs2)
          = encodeRow r ++ '\r' :: '\n' :: csvLines (r2 :: rs2) from rfl]
      rw [parseCsv.eq_def, dif_neg (by simp), hrec]
      rw [ih (fun x hx => hall x (by simp [hx]))]

/-- C8: for every record collection — whatever delimiters, quotes or
newlines its text fields contain — the CSV block emitted by `format_csv`
parses back under standard CSV rules to exactly the fixed twelve-label
header row followed by one data row per record, so the data-row count
equals the record count. -/
theorem c8_csv_round_trip (housings : List Housing) :
    parseCsv (formatCsv housings)
      = csvHeaderRow :: housings.map housingCsvRow
    ∧ (parseCsv (formatCsv housings)).length = housings.length + 1 := by
  have hrowsne : ∀ r ∈ csvHeaderRow :: housings.map housingCsvRow, r ≠ [] := by
    intro r hr
    rcases List.mem_cons.mp hr with rfl | hr2
    · simp [csvHeaderRow]
    · obtain ⟨h, -, rfl⟩ := List.mem_map.mp hr2
      simp [housingCsvRow]
  have h1 : formatCsv housings
      = csvLines (csvHeaderRow :: housings.map housingCsvRow) := by
    rw [formatCsv, pyRstripNl_encodeCsv]
  rw [h1, parseCsv_csvLines _ hrowsne]
  exact ⟨rfl, by simp⟩
